import Mathlib

/-
Verification of the release-orchestration core of the cross-release CLI
(src/packages/cross-release-cli/src/cli.ts).

The TypeScript class App is embedded shallowly: the mutable fields of the
class become the record AppState, external collaborators (cross-bump
discovery and file updates, clack prompts, git operations) become an
environment record Env of pure result functions, and every method of the
class becomes a Lean function over AppState.  The per-file update fan-out
(a Promise.all over independent files) is sequentialized in file order;
each file only appends to modifiedFiles or sets the shared status, so the
sequentialization is faithful to the observable final state.  Interactive
cancellation (handleUserCancel followed by process.exit) is modeled as an
Except error value carrying the exit code together with the prompts issued
and the tasks queued at the moment of exit, so that the aborted state is
observable in theorems.
-/

namespace CrossRelease

/-- Task status of one release run, the Status union type of the source. -/
inductive Status where
  | pending
  | running
  | failed
  | finished
deriving DecidableEq, Repr

/-- Modelled from the spec: the ExitCode enumeration lives in
src/exitCode.ts which is not part of the provided sources; the spec asks
for a zero code on normal finish, a distinct code on user cancellation and
a distinct code on fatal setup failure. -/
inductive ExitCode where
  | ok
  | fatalError
  | canceled
deriving DecidableEq, Repr

/-- A discovered project manifest: its path and its category. -/
structure ProjectFile where
  path : String
  category : String
deriving DecidableEq, Repr

/-- Arguments of one findProjectFiles call.  The third argument of the
TypeScript function is optional, hence an Option: none records a call
site that omitted the argument. -/
structure DiscoveryCall where
  dir : String
  excludes : List String
  recursive : Option Bool
deriving DecidableEq, Repr

/-- Operator-supplied configuration.  The boolean step flags commit, tag
and push are Option Bool so that an absent flag (none) is distinguishable
from an explicitly supplied value (some b); the source reads them with a
plain falsy test, which conflates none and some false.  The commit and
push sub-options are modeled as direct fields; in the source they are
extracted from alternate option shapes by resolveAltOptions (src/util,
outside the provided sources). -/
structure ReleaseOptions where
  dir : String
  excludes : List String
  recursive : Bool
  main : String
  version : Option String
  dry : Bool
  yes : Bool
  commit : Option Bool
  tag : Option Bool
  push : Option Bool
  commitTemplate : String
  commitStageAll : Bool
  commitVerify : Bool
  pushFollowTags : Bool
deriving DecidableEq, Repr

/-- A queued task.  In the source a task is a name together with a
closure; the closures built by the App methods capture exactly the data
recorded in the corresponding constructor, and read modifiedFiles and the
push sub-options from the live state at execution time. -/
inductive Task where
  | upgradeVersion (nextVersion : String) (files : List ProjectFile)
  | commit (dry : Bool) (message : String) (stageAll : Bool) (verify : Bool)
  | tag (dry : Bool) (message : String) (tagName : String)
  | push (dry : Bool)
deriving DecidableEq, Repr

/-- The display name the source attaches to each task when queuing it. -/
def Task.name : Task → String
  | .upgradeVersion _ _ => "upgradeVersion"
  | .commit _ _ _ _ => "commit"
  | .tag _ _ _ => "tag"
  | .push _ => "push"

/-- One invocation of a git collaborator, recorded with the arguments the
task handed to it. -/
inductive GitCall where
  | commit (dry : Bool) (message : String) (modifiedFiles : List String)
      (stageAll : Bool) (verify : Bool)
  | tag (dry : Bool) (message : String) (tagName : String)
  | push (dry : Bool) (followTags : Bool)
deriving DecidableEq, Repr

/-- The mutable fields of the App class. -/
structure AppState where
  currentVersion : String
  modifiedFiles : List String
  nextVersion : String
  options : ReleaseOptions
  taskQueue : List Task
  taskStatus : Status
deriving DecidableEq, Repr

/-- Results of the external collaborators, supplied as pure functions:
cross-bump discovery, version reading, validation and per-file update
success, the clack prompts (none encodes a cancellation), and the success
booleans of the git operations. -/
structure Env where
  findProjectFiles : DiscoveryCall → List ProjectFile
  getProjectVersion : ProjectFile → Option String
  isVersionValid : String → Bool
  upgradeOk : String → ProjectFile → Bool
  chooseVersion : String → Option String
  confirm : String → Option Bool
  gitCommitOk : Bool → String → List String → Bool → Bool → Bool
  gitTagOk : Bool → String → String → Bool
  gitPushOk : Bool → Bool → Bool

/-- Abnormal ends of a run: the two thrown setup errors of getNextVersion,
and process exit on prompt cancellation.  The cancellation constructor
records the exit code together with the confirm prompts issued and the
names of the tasks queued at the moment of exit. -/
inductive RunError where
  | noProjectFiles
  | mainMissing
  | cancelled (code : ExitCode) (promptsIssued : List String)
      (queuedTasks : List String)
deriving DecidableEq, Repr

/-- Resolution of one confirmation gate: the boolean stored back into the
option, and whether an interactive prompt was issued to obtain it. -/
structure GateResult where
  value : Bool
  promptIssued : Bool
deriving DecidableEq, Repr

/-- Result of executing the task queue: the final state, the names of the
tasks whose action was invoked, and the git calls they performed. -/
structure RunTrace where
  state : AppState
  executed : List String
  gitCalls : List GitCall
deriving DecidableEq, Repr

/-- Observable outcome of a completed run: the final state, the status
just before done ran, the queue as executed, the executed task names, the
git calls, the confirm prompts issued, and the discovery calls made. -/
structure RunOutcome where
  state : AppState
  statusBeforeDone : Status
  queue : List Task
  executed : List String
  gitCalls : List GitCall
  promptsIssued : List String
  discCalls : List DiscoveryCall
deriving DecidableEq, Repr

/-- Test for an occurrence of the two-character placeholder token in a
character list; the template.includes test of the source. -/
def containsPS : List Char → Bool
  | [] => false
  | c :: rest => (c == '%' && rest.head? == some 's') || containsPS rest

/-- Replacement of every occurrence of the placeholder token, leftmost
first and non-overlapping, as String.prototype.replaceAll performs it for
a plain string pattern.  The dollar substitution patterns JavaScript
additionally interprets inside the replacement string are not modeled;
theorems about versions containing a dollar sign are out of scope. -/
def replacePS (v : List Char) : List Char → List Char
  | [] => []
  | [c] => [c]
  | c :: d :: rest =>
    if c = '%' ∧ d = 's' then v ++ replacePS v rest
    else c :: replacePS v (d :: rest)

/-- formatMessageString of the source: if the template contains the
placeholder, every occurrence is replaced with the version, otherwise the
version is appended. -/
def formatMessageString (template : String) (nextVersion : String) : String :=
  if containsPS template.data then ⟨replacePS nextVersion.data template.data⟩
  else template ++ nextVersion

/-- addTask of the source appends one task to the queue (its boolean
length check always succeeds and is dropped here). -/
def addTask (s : AppState) (t : Task) : AppState :=
  { s with taskQueue := s.taskQueue ++ [t] }

/-- check of the source: a false success report from a git operation sets
the run status to failed. -/
def check (status : Bool) (s : AppState) : AppState :=
  if status then s else { s with taskStatus := Status.failed }

/-- The field initializers of the App class. -/
def initialState (opts : ReleaseOptions) : AppState :=
  { currentVersion := ""
    modifiedFiles := []
    nextVersion := ""
    options := opts
    taskQueue := []
    taskStatus := Status.pending }

/-- start of the source: status becomes running (the dry-run banner and
the DRY environment variable have no further effect inside the core). -/
def appStart (opts : ReleaseOptions) : AppState :=
  { initialState opts with taskStatus := Status.running }

/-- done of the source: it unconditionally sets the status to finished. -/
def doneApp (s : AppState) : AppState :=
  { s with taskStatus := Status.finished }

/-- The discovery call made by getNextVersion: the source passes dir and
excludes and omits the recursive argument. -/
def versionDiscoveryCall (opts : ReleaseOptions) : DiscoveryCall :=
  { dir := opts.dir, excludes := opts.excludes, recursive := none }

/-- The discovery call made by getProjects: the source passes dir,
excludes and the recursive option. -/
def projectsDiscoveryCall (opts : ReleaseOptions) : DiscoveryCall :=
  { dir := opts.dir, excludes := opts.excludes, recursive := some opts.recursive }

/-- getNextVersion of the source: discover project files (without the
recursive argument), fail when none is found or none matches the main
category, read the current version of the main file tolerating absence,
then take the explicit version when it validates, otherwise the
interactively chosen one; a cancelled chooser exits the process. -/
def getNextVersion (env : Env) (s : AppState) :
    Except RunError (AppState × DiscoveryCall) :=
  let call := versionDiscoveryCall s.options
  let projectFiles := env.findProjectFiles call
  if projectFiles.isEmpty then .error RunError.noProjectFiles
  else
    match projectFiles.find? (fun f => f.category == s.options.main) with
    | none => .error RunError.mainMissing
    | some mainProjectFile =>
      let s1 := { s with
        currentVersion := (env.getProjectVersion mainProjectFile).getD "" }
      if (s1.options.version.map env.isVersionValid).getD false then
        .ok ({ s1 with nextVersion := s1.options.version.getD "" }, call)
      else
        match env.chooseVersion s1.currentVersion with
        | none => .error (RunError.cancelled ExitCode.canceled [] [])
        | some v => .ok ({ s1 with nextVersion := v }, call)

/-- getProjects of the source: discover project files with the recursive
option and queue the version-update task over them. -/
def getProjects (env : Env) (s : AppState) : AppState × DiscoveryCall :=
  let call := projectsDiscoveryCall s.options
  let files := env.findProjectFiles call
  (addTask s (Task.upgradeVersion s.nextVersion files), call)

/-- The decision logic of confirmAndSet for one gate: batch-yes forces
true without prompting; otherwise a falsy current option value (absent or
explicitly false) triggers the interactive confirm, whose cancellation
exits the process and whose answer is stored; a truthy current value is
used as is without prompting. -/
def resolveGate (yes : Bool) (opt : Option Bool) (answer : Option Bool) :
    Except ExitCode GateResult :=
  if yes then .ok { value := true, promptIssued := false }
  else if !(opt.getD false) then
    match answer with
    | none => .error ExitCode.canceled
    | some b => .ok { value := b, promptIssued := true }
  else .ok { value := true, promptIssued := false }

/-- confirmReleaseOptions of the source: the commit message is expanded
once from the commit template before any gate runs, then the commit, tag
and push gates are evaluated in that fixed order, each storing its
resolved value back into the options and queuing its task exactly when
the value is true.  The gates read the yes flag and their own option
field, which no earlier gate writes, so the original options record is
consulted for both.  A cancellation aborts with the canceled exit code,
recording the prompts issued and the queue at that point. -/
def confirmReleaseOptions (env : Env) (s : AppState) :
    Except RunError (AppState × List String) :=
  let dry := s.options.dry
  let msg := formatMessageString s.options.commitTemplate s.nextVersion
  match resolveGate s.options.yes s.options.commit (env.confirm "should commit?") with
  | .error code =>
      .error (RunError.cancelled code ["should commit?"] (s.taskQueue.map Task.name))
  | .ok g1 =>
    let sA := { s with options := { s.options with commit := some g1.value } }
    let sB := if g1.value then
        addTask sA (Task.commit dry msg s.options.commitStageAll s.options.commitVerify)
      else sA
    let p1 := if g1.promptIssued then ["should commit?"] else []
    match resolveGate s.options.yes s.options.tag (env.confirm "should create tag?") with
    | .error code =>
        .error (RunError.cancelled code (p1 ++ ["should create tag?"])
          (sB.taskQueue.map Task.name))
    | .ok g2 =>
      let sC := { sB with options := { sB.options with tag := some g2.value } }
      let sD := if g2.value then
          addTask sC (Task.tag dry msg ("v" ++ s.nextVersion))
        else sC
      let p2 := p1 ++ (if g2.promptIssued then ["should create tag?"] else [])
      match resolveGate s.options.yes s.options.push (env.confirm "should push to remote?") with
      | .error code =>
          .error (RunError.cancelled code (p2 ++ ["should push to remote?"])
            (sD.taskQueue.map Task.name))
      | .ok g3 =>
        let sE := { sD with options := { sD.options with push := some g3.value } }
        let sF := if g3.value then addTask sE (Task.push dry) else sE
        let p3 := p2 ++ (if g3.promptIssued then ["should push to remote?"] else [])
        .ok (sF, p3)

/-- The per-file fan-out of the version-update task, sequentialized in
file order: a successful update appends the path to modifiedFiles, a
failed one is caught locally and sets the status to failed, and in either
case the remaining files are still attempted. -/
def upgradeFiles (env : Env) (nv : String) : List ProjectFile → AppState → AppState
  | [], s => s
  | f :: rest, s =>
    if env.upgradeOk nv f then
      upgradeFiles env nv rest { s with modifiedFiles := s.modifiedFiles ++ [f.path] }
    else
      upgradeFiles env nv rest { s with taskStatus := Status.failed }

/-- Execution of one queued task: the version-update fan-out, or one git
operation whose false success report sets the status to failed.  The
commit call reads modifiedFiles, and the push call reads the follow-tags
sub-option, from the state at execution time, as the closures of the
source do. -/
def execTask (env : Env) (t : Task) (s : AppState) : AppState × List GitCall :=
  match t with
  | .upgradeVersion nv files => (upgradeFiles env nv files s, [])
  | .commit dry msg stageAll verify =>
      (check (env.gitCommitOk dry msg s.modifiedFiles stageAll verify) s,
        [GitCall.commit dry msg s.modifiedFiles stageAll verify])
  | .tag dry msg tagName =>
      (check (env.gitTagOk dry msg tagName) s, [GitCall.tag dry msg tagName])
  | .push dry =>
      (check (env.gitPushOk dry s.options.pushFollowTags) s,
        [GitCall.push dry s.options.pushFollowTags])

/-- The task loop of run: before each task the current status is
inspected and a failed status ends the loop without invoking the
remaining tasks; otherwise the task executes and the loop continues. -/
def runTasks (env : Env) : List Task → AppState → RunTrace
  | [], s => { state := s, executed := [], gitCalls := [] }
  | t :: rest, s =>
    if s.taskStatus = Status.failed then { state := s, executed := [], gitCalls := [] }
    else
      let step := execTask env t s
      let r := runTasks env rest step.1
      { state := r.state, executed := t.name :: r.executed,
        gitCalls := step.2 ++ r.gitCalls }

/-- run of the source: start, resolve the next version, queue the
version-update task, evaluate the gates, execute the queue with the
fail-fast check, then done. -/
def run (env : Env) (opts : ReleaseOptions) : Except RunError RunOutcome :=
  let s0 := appStart opts
  match getNextVersion env s0 with
  | .error e => .error e
  | .ok (s1, call1) =>
    let pr := getProjects env s1
    match confirmReleaseOptions env pr.1 with
    | .error e => .error e
    | .ok (s3, prompts) =>
      let r := runTasks env s3.taskQueue s3
      .ok { state := doneApp r.state
            statusBeforeDone := r.state.taskStatus
            queue := s3.taskQueue
            executed := r.executed
            gitCalls := r.gitCalls
            promptsIssued := prompts
            discCalls := [call1, pr.2] }

lemma containsPS_cons (c : Char) (l : List Char) :
    containsPS (c :: l) = ((c == '%' && l.head? == some 's') || containsPS l) := rfl

lemma containsPS_append_of_not_mem (v X : List Char) (h : '%' ∉ v)
    (hX : containsPS X = false) : containsPS (v ++ X) = false := by
  induction v with
  | nil => simpa using hX
  | cons a v ih =>
    have ha : (a == '%') = false := by
      have : a ≠ '%' := fun hh => h (by simp [hh])
      simpa using this
    have hv : '%' ∉ v := fun hh => h (List.mem_cons_of_mem a hh)
    simp [List.cons_append, containsPS_cons, ha, ih hv]

lemma replacePS_nil (v : List Char) : replacePS v [] = [] := rfl

lemma replacePS_single (v : List Char) (c : Char) : replacePS v [c] = [c] := rfl

lemma replacePS_cons2 (v : List Char) (c d : Char) (rest : List Char) :
    replacePS v (c :: d :: rest) =
      if c = '%' ∧ d = 's' then v ++ replacePS v rest
      else c :: replacePS v (d :: rest) := rfl

/-- Core safety lemma for the placeholder replacement: when the
replacement text is nonempty and contains neither of the two placeholder
characters, the output contains no placeholder occurrence, and its first
character can only be the second placeholder character when the input
already began with it. -/
lemma replacePS_safe (v : List Char) (hne : v ≠ []) (hp : '%' ∉ v)
    (hs : 's' ∉ v) :
    ∀ n l, l.length ≤ n →
      containsPS (replacePS v l) = false ∧
      ((replacePS v l).head? = some 's' → l.head? = some 's') := by
  intro n
  induction n with
  | zero =>
    intro l hl
    have hl0 : l = [] := List.length_eq_zero.mp (Nat.le_zero.mp hl)
    subst hl0
    simp [replacePS_nil, containsPS]
  | succ n ih =>
    intro l hl
    match l with
    | [] => simp [replacePS_nil, containsPS]
    | [c] =>
      refine ⟨by simp [replacePS_single, containsPS], fun h => h⟩
    | c :: d :: rest =>
      by_cases hcd : c = '%' ∧ d = 's'
      · rw [replacePS_cons2, if_pos hcd]
        have hrest := ih rest (by simp [List.length_cons] at hl ⊢; omega)
        refine ⟨containsPS_append_of_not_mem v _ hp hrest.1, ?_⟩
        intro hh
        exfalso
        cases v with
        | nil => exact hne rfl
        | cons a v2 =>
          have ha : a = 's' := by simpa using hh
          exact hs (by simp [ha])
      · rw [replacePS_cons2, if_neg hcd]
        have hrec := ih (d :: rest) (by simp [List.length_cons] at hl ⊢; omega)
        refine ⟨?_, ?_⟩
        · rw [containsPS_cons, hrec.1]
          simp only [Bool.or_false]
          cases hc : (c == '%') with
          | false => simp
          | true =>
            have hc2 : c = '%' := by simpa using hc
            cases hhd : ((replacePS v (d :: rest)).head? == some 's') with
            | false => simp
            | true =>
              have hh : (replacePS v (d :: rest)).head? = some 's' := by simpa using hhd
              have hd2 : d = 's' := by simpa using hrec.2 hh
              exact absurd ⟨hc2, hd2⟩ hcd
        · intro hh
          have hc : c = 's' := by simpa using hh
          simp [hc]

/-- C6 counterexample: the claim states that for every template containing
the placeholder and every version string, the formatted result contains no
remaining placeholder.  The template made of percent, percent, s, s
contains the placeholder, yet formatting it with the empty version leaves
the leftover percent adjacent to the leftover s, so the result is exactly
the placeholder again. -/
theorem c6_counterexample :
    containsPS ("%%ss" : String).data = true ∧
    containsPS (formatMessageString "%%ss" "").data = true := by
  constructor <;> decide

/-- C6, amended: formatMessageString replaces every occurrence of the
placeholder in one left-to-right non-overlapping pass; the result is
guaranteed free of the placeholder when the version string is nonempty and
contains neither the percent character nor the s character (otherwise the
version itself, or a junction of leftover template characters with the
inserted version, can recreate an occurrence).  The dollar character is
additionally excluded because the JavaScript replaceAll interprets dollar
patterns inside the replacement string, which the embedding does not
model. -/
theorem c6_format_no_placeholder (t v : String)
    (ht : containsPS t.data = true) (hne : v.data ≠ [])
    (hp : '%' ∉ v.data) (hs : 's' ∉ v.data) (_hd : '$' ∉ v.data) :
    containsPS (formatMessageString t v).data = false := by
  have h := replacePS_safe v.data hne hp hs t.data.length t.data (Nat.le_refl _)
  rw [formatMessageString, if_pos ht]
  exact h.1

/-- Witness for the amended C6 theorem at a concrete template and
version. -/
theorem c6_format_no_placeholder_witness :
    containsPS ("a%sb" : String).data = true ∧
    containsPS (formatMessageString "a%sb" "x").data = false :=
  ⟨by decide,
   c6_format_no_placeholder "a%sb" "x" (by decide) (by decide) (by decide)
     (by decide) (by decide)⟩

/-- C5 counterexample: the claim states that an option already explicitly
set, whether to true or to false, is used without an interactive prompt
when batch-yes is off.  With the option explicitly set to false and
batch-yes off, the source tests only falsiness, so the interactive prompt
is issued after all: the gate resolution reports promptIssued true. -/
theorem c5_counterexample :
    resolveGate false (some false) (some false) =
      Except.ok { value := false, promptIssued := true } := rfl

/-- C5, amended: when batch-yes is off, an option currently true is used
without prompting, but an option that is absent or explicitly false
triggers the interactive confirm (an explicit false does not suppress the
prompt); the answer of the prompt is stored, and a cancellation aborts
with the canceled exit code. -/
theorem c5_gate_no_reprompt_only_when_true (opt ans : Option Bool) :
    (opt = some true →
      resolveGate false opt ans =
        Except.ok { value := true, promptIssued := false }) ∧
    (opt.getD false = false →
      resolveGate false opt ans =
        match ans with
        | none => Except.error ExitCode.canceled
        | some b => Except.ok { value := b, promptIssued := true }) := by
  constructor
  · intro h; subst h; rfl
  · intro h
    cases ans <;> simp [resolveGate, h]

/-- Witness for the amended C5 theorem: a true option is used without a
prompt, and an explicitly false option leads to a prompt whose positive
answer is stored. -/
theorem c5_gate_witness :
    resolveGate false (some true) (some false) =
      Except.ok { value := true, promptIssued := false } ∧
    resolveGate false (some false) (some true) =
      Except.ok { value := true, promptIssued := true } :=
  ⟨(c5_gate_no_reprompt_only_when_true (some true) (some false)).1 rfl,
   (c5_gate_no_reprompt_only_when_true (some false) (some true)).2 rfl⟩

lemma upgradeFiles_modifiedFiles (env : Env) (nv : String) :
    ∀ (files : List ProjectFile) (s : AppState),
      (upgradeFiles env nv files s).modifiedFiles =
        s.modifiedFiles ++
          (files.filter (fun f => env.upgradeOk nv f)).map ProjectFile.path := by
  intro files
  induction files with
  | nil => intro s; simp [upgradeFiles]
  | cons f rest ih =>
    intro s
    cases h : env.upgradeOk nv f with
    | true => simp [upgradeFiles, h, ih]
    | false => simp [upgradeFiles, h, ih]

lemma upgradeFiles_status (env : Env) (nv : String) :
    ∀ (files : List ProjectFile) (s : AppState),
      (upgradeFiles env nv files s).taskStatus =
        if files.any (fun f => !(env.upgradeOk nv f)) then Status.failed
        else s.taskStatus := by
  intro files
  induction files with
  | nil => intro s; simp [upgradeFiles]
  | cons f rest ih =>
    intro s
    cases h : env.upgradeOk nv f with
    | true => simp [upgradeFiles, h, ih]
    | false => simp [upgradeFiles, h, ih]

lemma upgradeFiles_preserves (env : Env) (nv : String) :
    ∀ (files : List ProjectFile) (s : AppState),
      (upgradeFiles env nv files s).options = s.options ∧
      (upgradeFiles env nv files s).nextVersion = s.nextVersion ∧
      (upgradeFiles env nv files s).taskQueue = s.taskQueue ∧
      (upgradeFiles env nv files s).currentVersion = s.currentVersion := by
  intro files
  induction files with
  | nil => intro s; exact ⟨rfl, rfl, rfl, rfl⟩
  | cons f rest ih =>
    intro s
    cases h : env.upgradeOk nv f with
    | true => simpa [upgradeFiles, h] using ih _
    | false => simpa [upgradeFiles, h] using ih _

/-- C4: partial-failure semantics of the version-update task.  Starting
from a running state with an empty modified-files list, executing the
fan-out over any list of discovered project files attempts every file,
leaves modifiedFiles holding exactly the paths of the files whose write
succeeded (in file order), and the status is failed exactly when at least
one write failed. -/
theorem c4_partial_failure (env : Env) (nv : String) (files : List ProjectFile)
    (s : AppState) (hrun : s.taskStatus = Status.running)
    (hmod : s.modifiedFiles = []) :
    (execTask env (Task.upgradeVersion nv files) s).1.modifiedFiles =
      (files.filter (fun f => env.upgradeOk nv f)).map ProjectFile.path ∧
    ((execTask env (Task.upgradeVersion nv files) s).1.taskStatus = Status.failed ↔
      ∃ f ∈ files, env.upgradeOk nv f = false) := by
  have he : (execTask env (Task.upgradeVersion nv files) s).1 =
      upgradeFiles env nv files s := rfl
  constructor
  · rw [he, upgradeFiles_modifiedFiles env nv files s, hmod, List.nil_append]
  · rw [he, upgradeFiles_status env nv files s]
    by_cases hany : files.any (fun f => !(env.upgradeOk nv f)) = true
    · rw [if_pos hany]
      constructor
      · intro _
        obtain ⟨f, hf, hb⟩ := List.any_eq_true.mp hany
        exact ⟨f, hf, by simpa using hb⟩
      · intro _; rfl
    · rw [if_neg hany, hrun]
      constructor
      · intro h; exact absurd h (by decide)
      · rintro ⟨f, hf, hok⟩
        exact absurd (List.any_eq_true.mpr ⟨f, hf, by simp [hok]⟩) hany

/-- Three discovered project files of the main category, used by the
concrete witnesses. -/
def filesABC : List ProjectFile := [⟨"p1", "a"⟩, ⟨"p2", "a"⟩, ⟨"p3", "a"⟩]

/-- A collaborator environment in which every external operation
succeeds: discovery yields the three files, the explicit version is
valid, every file update succeeds, every prompt is answered yes, and
every git operation reports success. -/
def envOk : Env :=
  { findProjectFiles := fun _ => filesABC
    getProjectVersion := fun _ => some "0"
    isVersionValid := fun _ => true
    upgradeOk := fun _ _ => true
    chooseVersion := fun _ => some "9"
    confirm := fun _ => some true
    gitCommitOk := fun _ _ _ _ _ => true
    gitTagOk := fun _ _ _ => true
    gitPushOk := fun _ _ => true }

/-- Like envOk, except that updating the second project file fails. -/
def envFail : Env := { envOk with upgradeOk := fun _ f => !(f.path == "p2") }

/-- Like envOk, except that every interactive confirm is cancelled. -/
def envCancel : Env := { envOk with confirm := fun _ => none }

/-- Like envOk, except that version validation rejects everything and the
interactive chooser returns a string that is not a well-formed version. -/
def envChoose : Env :=
  { envOk with isVersionValid := fun _ => false, chooseVersion := fun _ => some "oops" }

/-- Options with every step pre-authorized through the batch-yes flag. -/
def optsYes : ReleaseOptions :=
  { dir := "d", excludes := ["x"], recursive := true, main := "a",
    version := some "1", dry := false, yes := true, commit := none,
    tag := none, push := none, commitTemplate := "m", commitStageAll := false,
    commitVerify := true, pushFollowTags := false }

/-- The same options without batch-yes. -/
def optsNoYes : ReleaseOptions := { optsYes with yes := false }

/-- Witness for C4 at a concrete input: with the second of three files
failing, the modified list holds exactly the first and third paths and
the status is failed. -/
theorem c4_partial_failure_witness :
    (execTask envFail (Task.upgradeVersion "1" filesABC) (appStart optsYes)).1.modifiedFiles =
      ["p1", "p3"] ∧
    (execTask envFail (Task.upgradeVersion "1" filesABC) (appStart optsYes)).1.taskStatus =
      Status.failed := by
  have h := c4_partial_failure envFail "1" filesABC (appStart optsYes) rfl rfl
  exact ⟨h.1.trans (by decide), h.2.mpr ⟨⟨"p2", "a"⟩, by decide, by decide⟩⟩

lemma getNextVersion_ok (env : Env) (s s1 : AppState) (c : DiscoveryCall)
    (h : getNextVersion env s = Except.ok (s1, c)) :
    c = versionDiscoveryCall s.options ∧ s1.options = s.options ∧
    s1.taskQueue = s.taskQueue ∧ s1.taskStatus = s.taskStatus ∧
    s1.modifiedFiles = s.modifiedFiles := by
  simp only [getNextVersion] at h
  split at h
  · exact Except.noConfusion h
  · split at h
    · exact Except.noConfusion h
    · split at h
      · simp only [Except.ok.injEq, Prod.mk.injEq] at h
        obtain ⟨hs, hc⟩ := h
        subst hc
        subst hs
        exact ⟨rfl, rfl, rfl, rfl, rfl⟩
      · split at h
        · exact Except.noConfusion h
        · simp only [Except.ok.injEq, Prod.mk.injEq] at h
          obtain ⟨hs, hc⟩ := h
          subst hc
          subst hs
          exact ⟨rfl, rfl, rfl, rfl, rfl⟩

lemma getNextVersion_choose (env : Env) (s s1 : AppState) (c : DiscoveryCall)
    (v : String)
    (hinvalid : (s.options.version.map env.isVersionValid).getD false = false)
    (hch : ∀ cv, env.chooseVersion cv = some v)
    (h : getNextVersion env s = Except.ok (s1, c)) :
    s1.nextVersion = v := by
  simp only [getNextVersion] at h
  split at h
  · exact Except.noConfusion h
  · split at h
    · exact Except.noConfusion h
    · rw [if_neg (by simp [hinvalid]), hch] at h
      simp only [Except.ok.injEq, Prod.mk.injEq] at h
      obtain ⟨hs, hc⟩ := h
      subst hs
      rfl

lemma confirmReleaseOptions_ok (env : Env) (s : AppState) (g1 g2 g3 : GateResult)
    (h1 : resolveGate s.options.yes s.options.commit
      (env.confirm "should commit?") = Except.ok g1)
    (h2 : resolveGate s.options.yes s.options.tag
      (env.confirm "should create tag?") = Except.ok g2)
    (h3 : resolveGate s.options.yes s.options.push
      (env.confirm "should push to remote?") = Except.ok g3) :
    ∃ s3 prompts, confirmReleaseOptions env s = Except.ok (s3, prompts) ∧
      s3.taskQueue = s.taskQueue ++
        ((if g1.value then
            [Task.commit s.options.dry
              (formatMessageString s.options.commitTemplate s.nextVersion)
              s.options.commitStageAll s.options.commitVerify] else []) ++
         (if g2.value then
            [Task.tag s.options.dry
              (formatMessageString s.options.commitTemplate s.nextVersion)
              ("v" ++ s.nextVersion)] else []) ++
         (if g3.value then [Task.push s.options.dry] else [])) ∧
      s3.taskStatus = s.taskStatus ∧
      s3.nextVersion = s.nextVersion ∧
      s3.modifiedFiles = s.modifiedFiles ∧
      s3.options.pushFollowTags = s.options.pushFollowTags := by
  simp only [confirmReleaseOptions, h1, h2, h3]
  refine ⟨_, _, rfl, ?_, ?_, ?_, ?_, ?_⟩ <;>
    cases hb1 : g1.value <;> cases hb2 : g2.value <;> cases hb3 : g3.value <;>
      simp [addTask, List.append_assoc]

lemma run_ok_elim (env : Env) (opts : ReleaseOptions) (out : RunOutcome)
    (h : run env opts = Except.ok out) :
    ∃ s1 call1 s3 prompts,
      getNextVersion env (appStart opts) = Except.ok (s1, call1) ∧
      confirmReleaseOptions env (getProjects env s1).1 = Except.ok (s3, prompts) ∧
      out = { state := doneApp (runTasks env s3.taskQueue s3).state
              statusBeforeDone := (runTasks env s3.taskQueue s3).state.taskStatus
              queue := s3.taskQueue
              executed := (runTasks env s3.taskQueue s3).executed
              gitCalls := (runTasks env s3.taskQueue s3).gitCalls
              promptsIssued := prompts
              discCalls := [call1, (getProjects env s1).2] } := by
  simp only [run] at h
  cases hg : getNextVersion env (appStart opts) with
  | error e =>
    simp only [hg] at h
    exact Except.noConfusion h
  | ok p =>
    obtain ⟨s1, call1⟩ := p
    simp only [hg] at h
    cases hc : confirmReleaseOptions env (getProjects env s1).1 with
    | error e =>
      simp only [hc] at h
      exact Except.noConfusion h
    | ok q =>
      obtain ⟨s3, prompts⟩ := q
      simp only [hc, Except.ok.injEq] at h
      exact ⟨s1, call1, s3, prompts, rfl, hc, h.symm⟩

lemma runTasks_of_failed (env : Env) (q : List Task) (s : AppState)
    (h : s.taskStatus = Status.failed) :
    runTasks env q s = { state := s, executed := [], gitCalls := [] } := by
  cases q with
  | nil => rfl
  | cons t rest => simp [runTasks, h]

lemma runTasks_executed_take (env : Env) :
    ∀ (q : List Task) (s : AppState),
      ∃ n, (runTasks env q s).executed = (q.map Task.name).take n := by
  intro q
  induction q with
  | nil => intro s; exact ⟨0, rfl⟩
  | cons t rest ih =>
    intro s
    by_cases hf : s.taskStatus = Status.failed
    · exact ⟨0, by simp [runTasks, hf]⟩
    · obtain ⟨n, hn⟩ := ih (execTask env t s).1
      exact ⟨n + 1, by simp [runTasks, hf, hn]⟩

lemma execTask_tag_call (env : Env) (t : Task) (s : AppState)
    (d : Bool) (m tn : String)
    (h : GitCall.tag d m tn ∈ (execTask env t s).2) : t = Task.tag d m tn := by
  cases t with
  | upgradeVersion nv files => simp [execTask] at h
  | commit dry msg sa vf => simp [execTask] at h
  | tag dry msg tn2 =>
    simp [execTask] at h
    obtain ⟨hd2, hm, ht⟩ := h
    rw [hd2, hm, ht]
  | push dry => simp [execTask] at h

lemma execTask_commit_call (env : Env) (t : Task) (s : AppState)
    (d : Bool) (m : String) (fl : List String) (sa vf : Bool)
    (h : GitCall.commit d m fl sa vf ∈ (execTask env t s).2) :
    t = Task.commit d m sa vf := by
  cases t with
  | upgradeVersion nv files => simp [execTask] at h
  | commit dry msg sa2 vf2 =>
    simp [execTask] at h
    obtain ⟨hd2, hm, _, hsa, hvf⟩ := h
    rw [hd2, hm, hsa, hvf]
  | tag dry msg tn2 => simp [execTask] at h
  | push dry => simp [execTask] at h

lemma runTasks_tag_mem (env : Env) :
    ∀ (q : List Task) (s : AppState) (d : Bool) (m tn : String),
      GitCall.tag d m tn ∈ (runTasks env q s).gitCalls → Task.tag d m tn ∈ q := by
  intro q
  induction q with
  | nil => intro s d m tn h; simp [runTasks] at h
  | cons t rest ih =>
    intro s d m tn h
    by_cases hf : s.taskStatus = Status.failed
    · simp [runTasks, hf] at h
    · simp only [runTasks, if_neg hf] at h
      rcases List.mem_append.mp h with h | h
      · have ht := execTask_tag_call env t s d m tn h
        subst ht
        exact List.mem_cons_self _ _
      · exact List.mem_cons_of_mem _ (ih _ d m tn h)

lemma runTasks_commit_mem (env : Env) :
    ∀ (q : List Task) (s : AppState) (d : Bool) (m : String) (fl : List String)
      (sa vf : Bool),
      GitCall.commit d m fl sa vf ∈ (runTasks env q s).gitCalls →
      Task.commit d m sa vf ∈ q := by
  intro q
  induction q with
  | nil => intro s d m fl sa vf h; simp [runTasks] at h
  | cons t rest ih =>
    intro s d m fl sa vf h
    by_cases hf : s.taskStatus = Status.failed
    · simp [runTasks, hf] at h
    · simp only [runTasks, if_neg hf] at h
      rcases List.mem_append.mp h with h | h
      · have ht := execTask_commit_call env t s d m fl sa vf h
        subst ht
        exact List.mem_cons_self _ _
      · exact List.mem_cons_of_mem _ (ih _ d m fl sa vf h)

lemma execTask_preserves (env : Env) (t : Task) (s : AppState) :
    (execTask env t s).1.nextVersion = s.nextVersion ∧
    (execTask env t s).1.options = s.options := by
  cases t with
  | upgradeVersion nv files =>
    have h := upgradeFiles_preserves env nv files s
    exact ⟨h.2.1, h.1⟩
  | commit d msg sa vf =>
    simp only [execTask, check]
    split <;> exact ⟨rfl, rfl⟩
  | tag d msg tn =>
    simp only [execTask, check]
    split <;> exact ⟨rfl, rfl⟩
  | push d =>
    simp only [execTask, check]
    split <;> exact ⟨rfl, rfl⟩

lemma runTasks_preserves (env : Env) :
    ∀ (q : List Task) (s : AppState),
      (runTasks env q s).state.nextVersion = s.nextVersion ∧
      (runTasks env q s).state.options = s.options := by
  intro q
  induction q with
  | nil => intro s; exact ⟨rfl, rfl⟩
  | cons t rest ih =>
    intro s
    by_cases hf : s.taskStatus = Status.failed
    · simp [runTasks, hf]
    · have he := execTask_preserves env t s
      have hr := ih (execTask env t s).1
      refine ⟨?_, ?_⟩
      · simp only [runTasks, if_neg hf]
        exact hr.1.trans he.1
      · simp only [runTasks, if_neg hf]
        exact hr.2.trans he.2

/-- C2 counterexample: the claim states that a run whose status became
failed still has status failed after run completes.  In the concrete run
in which one file update fails, the status is failed when the task loop
ends, yet done unconditionally rewrites it, so the final status is
finished. -/
theorem c2_counterexample :
    (run envFail optsYes).toOption.map
        (fun o => (o.statusBeforeDone, o.state.taskStatus)) =
      some (Status.failed, Status.finished) := rfl

/-- C2, amended: failed blocks all further task execution while the loop
runs, but the status field is not terminal at failed: done runs
unconditionally at the end of run, so every run that completes (is not
aborted by a setup error or a cancellation) ends with status finished,
including runs whose status was failed during the loop. -/
theorem c2_finished_after_run (env : Env) (opts : ReleaseOptions)
    (out : RunOutcome) (h : run env opts = Except.ok out) :
    out.state.taskStatus = Status.finished := by
  obtain ⟨s1, call1, s3, prompts, hg, hc, hout⟩ := run_ok_elim env opts out h
  subst hout
  rfl

/-- Witness for the amended C2 theorem at a concrete run with a failing
file update. -/
theorem c2_finished_after_run_witness :
    ∃ out, run envFail optsYes = Except.ok out ∧
      out.state.taskStatus = Status.finished :=
  ⟨_, rfl, c2_finished_after_run envFail optsYes _ rfl⟩

/-- C7 counterexample: the claim states that the discovery performed by
the version resolution is recursive exactly when the recursive option is
set.  With the recursive option set, the completed concrete run records
two discovery calls: the version-resolution call passed no recursive
argument at all, only the later update fan-out call passed true. -/
theorem c7_counterexample :
    optsYes.recursive = true ∧
    (run envOk optsYes).toOption.map
        (fun o => o.discCalls.map DiscoveryCall.recursive) =
      some [none, some true] := ⟨rfl, rfl⟩

/-- C7, amended: every completed run performs exactly two discovery
calls.  Both pass the configured directory and exclusion patterns, but
the version-resolution discovery in getNextVersion omits the recursive
argument entirely (it is never recursive, whatever the option says),
while the update discovery in getProjects passes the recursive option
through. -/
theorem c7_discovery_calls (env : Env) (opts : ReleaseOptions)
    (out : RunOutcome) (h : run env opts = Except.ok out) :
    out.discCalls = [versionDiscoveryCall opts, projectsDiscoveryCall opts] ∧
    (versionDiscoveryCall opts).recursive = none ∧
    (versionDiscoveryCall opts).excludes = opts.excludes ∧
    (projectsDiscoveryCall opts).recursive = some opts.recursive ∧
    (projectsDiscoveryCall opts).excludes = opts.excludes := by
  obtain ⟨s1, call1, s3, prompts, hg, hc, hout⟩ := run_ok_elim env opts out h
  have hgok := getNextVersion_ok env _ s1 call1 hg
  subst hout
  refine ⟨?_, rfl, rfl, rfl, rfl⟩
  have h1 : call1 = versionDiscoveryCall opts := hgok.1
  have h2 : (getProjects env s1).2 = projectsDiscoveryCall opts := by
    simp [getProjects, hgok.2.1, appStart, initialState]
  simp [h1, h2]

/-- Witness for the amended C7 theorem at a concrete run. -/
theorem c7_discovery_calls_witness :
    ∃ out, run envOk optsYes = Except.ok out ∧
      out.discCalls = [versionDiscoveryCall optsYes, projectsDiscoveryCall optsYes] :=
  ⟨_, rfl, (c7_discovery_calls envOk optsYes _ rfl).1⟩

/-- C8: cancellation at the commit gate is immediate and final.  Whenever
the run reaches the gates (version resolution succeeded), batch-yes is
off, the commit option is falsy, and the commit confirm is cancelled, the
whole run aborts with the dedicated cancellation exit code; the only
prompt ever issued is the commit prompt (the tag and push gates are never
evaluated) and the queue at exit holds only the version-update task, so
no commit, tag or push task was queued, and the task loop never ran. -/
theorem c8_cancel (env : Env) (opts : ReleaseOptions) (s1 : AppState)
    (c1 : DiscoveryCall)
    (hg : getNextVersion env (appStart opts) = Except.ok (s1, c1))
    (hyes : opts.yes = false) (hcommit : opts.commit.getD false = false)
    (hans : env.confirm "should commit?" = none) :
    run env opts = Except.error
      (RunError.cancelled ExitCode.canceled ["should commit?"]
        ["upgradeVersion"]) := by
  have hgok := getNextVersion_ok env _ s1 c1 hg
  have hopts : (getProjects env s1).1.options = opts := by
    simp [getProjects, addTask, hgok.2.1, appStart, initialState]
  have hq : (getProjects env s1).1.taskQueue.map Task.name = ["upgradeVersion"] := by
    have hq1 : s1.taskQueue = [] := by
      rw [hgok.2.2.1]; rfl
    simp [getProjects, addTask, hq1, Task.name]
  have hgate : resolveGate (getProjects env s1).1.options.yes
      (getProjects env s1).1.options.commit (env.confirm "should commit?") =
      Except.error ExitCode.canceled := by
    rw [hopts, hyes, hans]
    simp [resolveGate, hcommit]
  have hconf : confirmReleaseOptions env (getProjects env s1).1 =
      Except.error (RunError.cancelled ExitCode.canceled ["should commit?"]
        ["upgradeVersion"]) := by
    simp only [confirmReleaseOptions, hgate]
    rw [hq]
  simp only [run, hg, hconf]

/-- Witness for C8 at a concrete run: batch-yes off, no step flag given,
the commit confirm cancelled. -/
theorem c8_cancel_witness :
    run envCancel optsNoYes = Except.error
      (RunError.cancelled ExitCode.canceled ["should commit?"]
        ["upgradeVersion"]) :=
  c8_cancel envCancel optsNoYes _ _ rfl rfl rfl rfl

lemma confirmReleaseOptions_ok_inv (env : Env) (s s3 : AppState)
    (prompts : List String)
    (hc : confirmReleaseOptions env s = Except.ok (s3, prompts)) :
    ∃ g1 g2 g3 : GateResult,
      resolveGate s.options.yes s.options.commit
        (env.confirm "should commit?") = Except.ok g1 ∧
      resolveGate s.options.yes s.options.tag
        (env.confirm "should create tag?") = Except.ok g2 ∧
      resolveGate s.options.yes s.options.push
        (env.confirm "should push to remote?") = Except.ok g3 := by
  cases h1 : resolveGate s.options.yes s.options.commit
      (env.confirm "should commit?") with
  | error e =>
    simp only [confirmReleaseOptions, h1] at hc
    exact Except.noConfusion hc
  | ok g1 =>
    cases h2 : resolveGate s.options.yes s.options.tag
        (env.confirm "should create tag?") with
    | error e =>
      simp only [confirmReleaseOptions, h1, h2] at hc
      exact Except.noConfusion hc
    | ok g2 =>
      cases h3 : resolveGate s.options.yes s.options.push
          (env.confirm "should push to remote?") with
      | error e =>
        simp only [confirmReleaseOptions, h1, h2, h3] at hc
        exact Except.noConfusion hc
      | ok g3 => exact ⟨g1, g2, g3, rfl, rfl, rfl⟩

lemma mem_queue_cases (t u c g p : Task) (b1 b2 b3 : Bool)
    (h : t ∈ u :: ((if b1 then [c] else []) ++ (if b2 then [g] else []) ++
      (if b3 then [p] else []))) :
    t = u ∨ t = c ∨ t = g ∨ t = p := by
  rcases List.mem_cons.mp h with h | h
  · exact Or.inl h
  · rcases List.mem_append.mp h with h | h
    · rcases List.mem_append.mp h with h | h
      · cases b1 with
        | true => exact Or.inr (Or.inl (by simpa using h))
        | false => simp at h
      · cases b2 with
        | true => exact Or.inr (Or.inr (Or.inl (by simpa using h)))
        | false => simp at h
    · cases b3 with
      | true => exact Or.inr (Or.inr (Or.inr (by simpa using h)))
      | false => simp at h

/-- Decomposition of every completed run into its stages: the resolved
version state, the three gate results, the exact task queue that was
executed (version-update task first, then each optional task exactly when
its gate value is true, in commit, tag, push order), the running status
at the start of the loop, and how the outcome fields arise from the task
loop. -/
lemma run_stages (env : Env) (opts : ReleaseOptions) (out : RunOutcome)
    (h : run env opts = Except.ok out) :
    ∃ (s1 s3 : AppState) (g1 g2 g3 : GateResult),
      getNextVersion env (appStart opts) =
        Except.ok (s1, versionDiscoveryCall opts) ∧
      resolveGate opts.yes opts.commit
        (env.confirm "should commit?") = Except.ok g1 ∧
      resolveGate opts.yes opts.tag
        (env.confirm "should create tag?") = Except.ok g2 ∧
      resolveGate opts.yes opts.push
        (env.confirm "should push to remote?") = Except.ok g3 ∧
      s3.taskQueue =
        Task.upgradeVersion s1.nextVersion
            (env.findProjectFiles (projectsDiscoveryCall opts)) ::
          ((if g1.value then
              [Task.commit opts.dry
                (formatMessageString opts.commitTemplate s1.nextVersion)
                opts.commitStageAll opts.commitVerify] else []) ++
           (if g2.value then
              [Task.tag opts.dry
                (formatMessageString opts.commitTemplate s1.nextVersion)
                ("v" ++ s1.nextVersion)] else []) ++
           (if g3.value then [Task.push opts.dry] else [])) ∧
      s3.taskStatus = Status.running ∧
      s3.nextVersion = s1.nextVersion ∧
      out.queue = s3.taskQueue ∧
      out.executed = (runTasks env s3.taskQueue s3).executed ∧
      out.gitCalls = (runTasks env s3.taskQueue s3).gitCalls ∧
      out.statusBeforeDone = (runTasks env s3.taskQueue s3).state.taskStatus ∧
      out.state.nextVersion = s1.nextVersion := by
  obtain ⟨s1, call1, s3, prompts, hg, hc, hout⟩ := run_ok_elim env opts out h
  have hgok := getNextVersion_ok env _ s1 call1 hg
  have hopts1 : s1.options = opts := hgok.2.1
  have hq1 : s1.taskQueue = [] := hgok.2.2.1
  have hst1 : s1.taskStatus = Status.running := hgok.2.2.2.1
  have hg2 : getNextVersion env (appStart opts) =
      Except.ok (s1, versionDiscoveryCall opts) := by
    rw [hgok.1] at hg
    exact hg
  obtain ⟨g1, g2, g3, h1, h2, h3⟩ :=
    confirmReleaseOptions_ok_inv env _ s3 prompts hc
  obtain ⟨s3x, px, hcx, hq, hst, hnv, hmf, hft⟩ :=
    confirmReleaseOptions_ok env (getProjects env s1).1 g1 g2 g3 h1 h2 h3
  rw [hc] at hcx
  simp only [Except.ok.injEq, Prod.mk.injEq] at hcx
  obtain ⟨hs3, hpx⟩ := hcx
  subst hs3
  have hs2opts : (getProjects env s1).1.options = opts := by
    simp [getProjects, addTask, hopts1]
  have hs2nv : (getProjects env s1).1.nextVersion = s1.nextVersion := rfl
  have hs2q : (getProjects env s1).1.taskQueue =
      [Task.upgradeVersion s1.nextVersion
        (env.findProjectFiles (projectsDiscoveryCall opts))] := by
    simp [getProjects, addTask, hq1, hopts1]
  have hs2st : (getProjects env s1).1.taskStatus = Status.running := by
    simp [getProjects, addTask, hst1]
  rw [hs2opts] at h1 h2 h3
  rw [hs2q, hs2opts, hs2nv] at hq
  rw [hs2st] at hst
  rw [hs2nv] at hnv
  simp only [List.singleton_append] at hq
  have hpres : (runTasks env s3.taskQueue s3).state.nextVersion = s3.nextVersion :=
    (runTasks_preserves env _ _).1
  subst hout
  exact ⟨s1, s3, g1, g2, g3, hg2, h1, h2, h3, hq, hst, hnv, rfl, rfl, rfl, rfl,
    hpres.trans hnv⟩

lemma runTasks_upgrade_fail (env : Env) (nv : String) (files : List ProjectFile)
    (rest : List Task) (s : AppState)
    (hs : s.taskStatus = Status.running)
    (hfail : (upgradeFiles env nv files s).taskStatus = Status.failed) :
    runTasks env (Task.upgradeVersion nv files :: rest) s =
      { state := upgradeFiles env nv files s,
        executed := ["upgradeVersion"], gitCalls := [] } := by
  have hnotf : ¬ (s.taskStatus = Status.failed) := by
    rw [hs]
    exact fun hh => Status.noConfusion hh
  have hexec : execTask env (Task.upgradeVersion nv files) s =
      (upgradeFiles env nv files s, ([] : List GitCall)) := rfl
  simp only [runTasks, if_neg hnotf, hexec]
  rw [runTasks_of_failed env rest _ hfail]
  simp [Task.name]

/-- C3: queue-shape invariant and gate order.  For every run that reaches
execution, the executed queue holds the version-update task first
unconditionally, each of the commit, tag and push tasks exactly when its
gate resolved to true, and those present appear in that fixed order; the
executed task names are always an order-preserving front portion of the
queue names, so the tasks also execute in that order. -/
theorem c3_queue_shape (env : Env) (opts : ReleaseOptions) (out : RunOutcome)
    (g1 g2 g3 : GateResult)
    (h : run env opts = Except.ok out)
    (h1 : resolveGate opts.yes opts.commit
      (env.confirm "should commit?") = Except.ok g1)
    (h2 : resolveGate opts.yes opts.tag
      (env.confirm "should create tag?") = Except.ok g2)
    (h3 : resolveGate opts.yes opts.push
      (env.confirm "should push to remote?") = Except.ok g3) :
    out.queue.map Task.name =
      "upgradeVersion" ::
        ((if g1.value then ["commit"] else []) ++
         (if g2.value then ["tag"] else []) ++
         (if g3.value then ["push"] else [])) ∧
    ∃ n, out.executed = (out.queue.map Task.name).take n := by
  obtain ⟨s1, s3, g1x, g2x, g3x, hg, h1x, h2x, h3x, hq, hst, hnv, hoq, hoe,
    hog, hosb, honv⟩ := run_stages env opts out h
  rw [h1] at h1x
  rw [h2] at h2x
  rw [h3] at h3x
  injection h1x with e1
  injection h2x with e2
  injection h3x with e3
  subst e1
  subst e2
  subst e3
  constructor
  · rw [hoq, hq]
    cases hb1 : g1.value <;> cases hb2 : g2.value <;> cases hb3 : g3.value <;>
      simp [Task.name, hb1, hb2, hb3]
  · rw [hoe, hoq]
    exact runTasks_executed_take env s3.taskQueue s3

/-- Witness for C3 at a concrete run with every gate pre-authorized: the
queue is exactly the four tasks in the fixed order. -/
theorem c3_queue_shape_witness :
    ∃ out, run envOk optsYes = Except.ok out ∧
      out.queue.map Task.name = ["upgradeVersion", "commit", "tag", "push"] := by
  obtain ⟨out, hout⟩ : ∃ out, run envOk optsYes = Except.ok out := ⟨_, rfl⟩
  refine ⟨out, hout, ?_⟩
  have h := c3_queue_shape envOk optsYes out
    { value := true, promptIssued := false }
    { value := true, promptIssued := false }
    { value := true, promptIssued := false } hout rfl rfl rfl
  simpa using h.1

/-- C1: fail-fast.  First part: once the status is failed, the task loop
invokes no action at all (this is checked before every queued task, so a
failure set by any task stops everything after it).  Second part: in any
completed run with all steps pre-authorized by batch-yes in which some
discovered file fails to update, the only task whose action ran is the
version-update task, no git call was made, and the loop ended with status
failed. -/
theorem c1_fail_fast :
    (∀ (env : Env) (q : List Task) (s : AppState),
        s.taskStatus = Status.failed →
        runTasks env q s = { state := s, executed := [], gitCalls := [] }) ∧
    (∀ (env : Env) (opts : ReleaseOptions) (out : RunOutcome),
        opts.yes = true → run env opts = Except.ok out →
        (∃ f ∈ env.findProjectFiles (projectsDiscoveryCall opts),
            env.upgradeOk out.state.nextVersion f = false) →
        out.executed = ["upgradeVersion"] ∧ out.gitCalls = [] ∧
        out.statusBeforeDone = Status.failed) := by
  constructor
  · exact runTasks_of_failed
  · intro env opts out hyes h hex
    obtain ⟨s1, s3, g1, g2, g3, hg, h1, h2, h3, hq, hst, hnv, hoq, hoe,
      hog, hosb, honv⟩ := run_stages env opts out h
    rw [hyes] at h1 h2 h3
    rw [show resolveGate true opts.commit (env.confirm "should commit?") =
      Except.ok ({ value := true, promptIssued := false } : GateResult) from rfl] at h1
    rw [show resolveGate true opts.tag (env.confirm "should create tag?") =
      Except.ok ({ value := true, promptIssued := false } : GateResult) from rfl] at h2
    rw [show resolveGate true opts.push (env.confirm "should push to remote?") =
      Except.ok ({ value := true, promptIssued := false } : GateResult) from rfl] at h3
    injection h1 with e1
    injection h2 with e2
    injection h3 with e3
    subst e1
    subst e2
    subst e3
    have hqueue : s3.taskQueue =
        [Task.upgradeVersion s1.nextVersion
            (env.findProjectFiles (projectsDiscoveryCall opts)),
         Task.commit opts.dry
            (formatMessageString opts.commitTemplate s1.nextVersion)
            opts.commitStageAll opts.commitVerify,
         Task.tag opts.dry
            (formatMessageString opts.commitTemplate s1.nextVersion)
            ("v" ++ s1.nextVersion),
         Task.push opts.dry] := by
      simpa using hq
    have hany : (env.findProjectFiles (projectsDiscoveryCall opts)).any
        (fun f => !(env.upgradeOk s1.nextVersion f)) = true := by
      obtain ⟨f, hf, hok⟩ := hex
      rw [honv] at hok
      exact List.any_eq_true.mpr ⟨f, hf, by simp [hok]⟩
    have hup : (upgradeFiles env s1.nextVersion
        (env.findProjectFiles (projectsDiscoveryCall opts)) s3).taskStatus =
        Status.failed := by
      rw [upgradeFiles_status env s1.nextVersion _ s3, if_pos hany]
    have hrun : runTasks env s3.taskQueue s3 =
        { state := upgradeFiles env s1.nextVersion
            (env.findProjectFiles (projectsDiscoveryCall opts)) s3,
          executed := ["upgradeVersion"], gitCalls := [] } := by
      rw [hqueue]
      exact runTasks_upgrade_fail env _ _ _ s3 hst hup
    exact ⟨by rw [hoe, hrun], by rw [hog, hrun], by rw [hosb, hrun]; exact hup⟩

/-- Witness for C1 at a concrete run: batch-yes on, second of three file
updates failing; only the version-update task ran and no git call was
made. -/
theorem c1_fail_fast_witness :
    ∃ out, run envFail optsYes = Except.ok out ∧
      out.executed = ["upgradeVersion"] ∧ out.gitCalls = [] ∧
      out.statusBeforeDone = Status.failed :=
  ⟨_, rfl, c1_fail_fast.2 envFail optsYes _ rfl rfl
    ⟨⟨"p2", "a"⟩, by decide, by decide⟩⟩

/-- C9: the tag step has no message template of its own.  In every
completed run, any tag invocation received as its message exactly the
commit message template expanded with the next version, and its tag name
is the letter v followed by the next version; any commit invocation in
the same run received that same message string. -/
theorem c9_tag_message (env : Env) (opts : ReleaseOptions) (out : RunOutcome)
    (h : run env opts = Except.ok out) :
    (∀ (d : Bool) (m tn : String), GitCall.tag d m tn ∈ out.gitCalls →
      m = formatMessageString opts.commitTemplate out.state.nextVersion ∧
      tn = "v" ++ out.state.nextVersion) ∧
    (∀ (d : Bool) (m : String) (fl : List String) (sa vf : Bool),
      GitCall.commit d m fl sa vf ∈ out.gitCalls →
      m = formatMessageString opts.commitTemplate out.state.nextVersion) := by
  obtain ⟨s1, s3, g1, g2, g3, hg, h1, h2, h3, hq, hst, hnv, hoq, hoe,
    hog, hosb, honv⟩ := run_stages env opts out h
  rw [honv]
  constructor
  · intro d m tn hmem
    rw [hog] at hmem
    have htask := runTasks_tag_mem env s3.taskQueue s3 d m tn hmem
    rw [hq] at htask
    rcases mem_queue_cases _ _ _ _ _ g1.value g2.value g3.value htask with
      hh | hh | hh | hh
    · exact absurd hh (by simp)
    · exact absurd hh (by simp)
    · cases hh
      exact ⟨rfl, rfl⟩
    · exact absurd hh (by simp)
  · intro d m fl sa vf hmem
    rw [hog] at hmem
    have htask := runTasks_commit_mem env s3.taskQueue s3 d m fl sa vf hmem
    rw [hq] at htask
    rcases mem_queue_cases _ _ _ _ _ g1.value g2.value g3.value htask with
      hh | hh | hh | hh
    · exact absurd hh (by simp)
    · cases hh
      rfl
    · exact absurd hh (by simp)
    · exact absurd hh (by simp)

/-- Witness for C9 at a concrete run in which the tag task executed: the
tag call carries the expanded commit message and the derived tag name. -/
theorem c9_tag_message_witness :
    ∃ out, run envOk optsYes = Except.ok out ∧
      GitCall.tag false "m1" "v1" ∈ out.gitCalls ∧
      "m1" = formatMessageString optsYes.commitTemplate out.state.nextVersion ∧
      "v1" = "v" ++ out.state.nextVersion :=
  ⟨_, rfl, by decide,
    ((c9_tag_message envOk optsYes _ rfl).1 false "m1" "v1" (by decide)).1,
    ((c9_tag_message envOk optsYes _ rfl).1 false "m1" "v1" (by decide)).2⟩

/-- C10: only the explicitly supplied version option is ever validated.
Whenever the explicit version is absent or rejected by the validator, any
non-cancelled string the interactive chooser returns becomes the next
version with no validity check at all (the theorem quantifies over every
string, with no well-formedness hypothesis), and that string is used
verbatim in the queued version-update task, in the tag name, and in the
expanded commit message. -/
theorem c10_no_validation (env : Env) (opts : ReleaseOptions) (out : RunOutcome)
    (v : String)
    (hinvalid : (opts.version.map env.isVersionValid).getD false = false)
    (hch : ∀ c, env.chooseVersion c = some v)
    (h : run env opts = Except.ok out) :
    out.state.nextVersion = v ∧
    (∀ (nv : String) (fs : List ProjectFile),
        Task.upgradeVersion nv fs ∈ out.queue → nv = v) ∧
    (∀ (d : Bool) (m tn : String), Task.tag d m tn ∈ out.queue →
        tn = "v" ++ v ∧ m = formatMessageString opts.commitTemplate v) := by
  obtain ⟨s1, s3, g1, g2, g3, hg, h1, h2, h3, hq, hst, hnv, hoq, hoe,
    hog, hosb, honv⟩ := run_stages env opts out h
  have hv : s1.nextVersion = v :=
    getNextVersion_choose env (appStart opts) s1 _ v hinvalid hch hg
  refine ⟨honv.trans hv, ?_, ?_⟩
  · intro nv fs hmem
    rw [hoq, hq] at hmem
    rcases mem_queue_cases _ _ _ _ _ g1.value g2.value g3.value hmem with
      hh | hh | hh | hh
    · cases hh
      exact hv
    · exact absurd hh (by simp)
    · exact absurd hh (by simp)
    · exact absurd hh (by simp)
  · intro d m tn hmem
    rw [hoq, hq] at hmem
    rcases mem_queue_cases _ _ _ _ _ g1.value g2.value g3.value hmem with
      hh | hh | hh | hh
    · exact absurd hh (by simp)
    · exact absurd hh (by simp)
    · cases hh
      rw [hv]
      exact ⟨rfl, rfl⟩
    · exact absurd hh (by simp)

/-- Witness for C10 at a concrete run: the validator rejects the supplied
version, the chooser returns a string that is not a well-formed version,
and that string becomes the next version and the tag suffix unchanged. -/
theorem c10_no_validation_witness :
    ∃ out, run envChoose optsYes = Except.ok out ∧
      out.state.nextVersion = "oops" ∧
      (∀ (d : Bool) (m tn : String), Task.tag d m tn ∈ out.queue →
        tn = "v" ++ "oops") :=
  ⟨_, rfl,
    (c10_no_validation envChoose optsYes _ "oops" (by decide)
      (fun _ => rfl) rfl).1,
    fun d m tn hmem =>
      ((c10_no_validation envChoose optsYes _ "oops" (by decide)
        (fun _ => rfl) rfl).2.2 d m tn hmem).1⟩

end CrossRelease
